import Mathlib

/-!
Shallow embedding of the MonexaAI frontend's pure logic:
number formatting (`frontend/utils/format.ts` and the variant in the unnamed
source file `part_000`), the axios response interceptor
(`frontend/utils/api.ts`), transaction grouping (`part_005`, the
Transactions screen) and period filtering / chart aggregation
(`frontend/app/(tabs)/insights.tsx`).

JavaScript numbers are modelled as `Option ℚ`: `none` models `NaN`,
`some q` a finite value.  Infinities are not modelled; no claim in scope
involves them.  Machine strings are Lean `String`s.
-/

/-- `digitVal c` is the numeric value of a decimal digit character. -/
def digitVal (c : Char) : ℕ := c.toNat - 48

/-- Fold a most-significant-first list of digit characters to a natural
number (the value a decimal parser accumulates). -/
def digitsToNat (cs : List Char) : ℕ :=
  cs.foldl (fun a c => 10 * a + digitVal c) 0

/-- Fuel-driven decimal rendering of a natural number, most significant
digit first; empty for `0` (callers special-case zero). -/
def natDigitCharsAux : ℕ → ℕ → List Char
  | 0, _ => []
  | fuel + 1, n =>
    if n = 0 then []
    else natDigitCharsAux fuel (n / 10) ++ [Nat.digitChar (n % 10)]

/-- Decimal digit characters of a natural number, most significant first
(`['0']` for zero). -/
def natDigitChars (n : ℕ) : List Char :=
  if n = 0 then ['0'] else natDigitCharsAux n n

/-- Insert a comma after every three characters of a least-significant-first
digit list, as the en-US locale groups integer digits (fuel-driven). -/
def group3RevAux : ℕ → List Char → List Char
  | 0, l => l
  | fuel + 1, l =>
    if l.length ≤ 3 then l
    else l.take 3 ++ ',' :: group3RevAux fuel (l.drop 3)

/-- en-US grouped decimal rendering of a natural number: digits with a comma
every three positions counted from the right. -/
def groupDigits (n : ℕ) : List Char :=
  (group3RevAux (natDigitChars n).length (natDigitChars n).reverse).reverse

/-- Exactly `d` decimal digit characters of `k % 10 ^ d`, most significant
first (zero-padded fraction digits). -/
def fixedDigits : ℕ → ℕ → List Char
  | 0, _ => []
  | d + 1, k => fixedDigits d (k / 10) ++ [Nat.digitChar (k % 10)]

/-- Round a nonnegative rational to the nearest natural number, ties away
from zero — the default `halfExpand` rounding of `Intl.NumberFormat`. -/
def roundHalfNat (q : ℚ) : ℕ := (⌊q + 1 / 2⌋).toNat

/-- Modelled builtin: `Number.prototype.toLocaleString('en-US', ...)` with
`minimumFractionDigits = maximumFractionDigits = d`: the value rounded to
`d` fraction digits (half away from zero), integer part grouped with
commas, a leading minus sign for negative inputs, and no fraction point
when `d = 0`.  The source only ever reaches `min = 0, max = 2` on an
integral value, where the rendering coincides with `d = 0`. -/
def renderFixedD (q : ℚ) (d : ℕ) : String :=
  let m : ℕ := roundHalfNat (10 ^ d * |q|)
  let core : List Char :=
    if d = 0 then groupDigits m
    else groupDigits (m / 10 ^ d) ++ '.' :: fixedDigits d (m % 10 ^ d)
  String.mk (if q < 0 then '-' :: core else core)

/-- The whitespace `parseFloat` skips before the number. -/
def jsWhitespace (c : Char) : Bool :=
  c = ' ' || c = '\t' || c = '\n' || c = '\r'

/-- Unsigned part of the `parseFloat` model: longest prefix
`digits [. digits]`; `none` when no digit is found on either side. -/
def parseUnsigned (cs : List Char) : Option ℚ :=
  let ds := cs.takeWhile Char.isDigit
  let rest := cs.dropWhile Char.isDigit
  let fs : List Char :=
    match rest with
    | '.' :: r => r.takeWhile Char.isDigit
    | _ => []
  if ds.isEmpty && fs.isEmpty then none
  else some ((digitsToNat ds : ℚ) + (digitsToNat fs : ℚ) / 10 ^ fs.length)

/-- Modelled builtin: JavaScript `parseFloat`, restricted to plain decimal
notation (optional sign, integer digits, optional fraction); `none` models
`NaN`.  Exponent suffixes and `Infinity` are not modelled — no string this
development parses contains them. -/
def parseFloat (s : String) : Option ℚ :=
  match s.toList.dropWhile jsWhitespace with
  | '-' :: r => (parseUnsigned r).map (fun q => -q)
  | '+' :: r => parseUnsigned r
  | cs => parseUnsigned cs

/-- A `number | string` argument of the formatting helpers.  `num none`
models a `NaN` number. -/
inductive NumOrStr
  | num (v : Option ℚ)
  | str (s : String)

/-- `typeof value === 'string' ? parseFloat(value) : value` followed by the
`isNaN` test: `none` exactly when the source's `isNaN(num)` holds. -/
def toNum : NumOrStr → Option ℚ
  | .num v => v
  | .str s => parseFloat s

/-- `value.replace(/,/g, '')`. -/
def stripCommas (s : String) : String :=
  String.mk (s.toList.filter (fun c => c ≠ ','))

namespace Part000
/-! The formatting module of the unnamed source file `part_000`:
conditional decimal display. -/

/-- `formatNumber` of `part_000`: `NaN` renders as `'0'`; otherwise
`toLocaleString` with `minimumFractionDigits: hasDecimals ? 2 : 0,
maximumFractionDigits: 2`, where `hasDecimals` is `num % 1 !== 0`, i.e.
`q.den ≠ 1` in the rational model. -/
def formatNumber (value : NumOrStr) : String :=
  match toNum value with
  | none => "0"
  | some q => renderFixedD q (if q.den = 1 then 0 else 2)

/-- `formatCurrency` of `part_000` (the default `currencySymbol` is `"$"`):
it recomputes the same formatting and prepends the symbol; on `NaN` it
returns the symbol followed by `'0'`. -/
def formatCurrency (value : NumOrStr) (currencySymbol : String) : String :=
  match toNum value with
  | none => currencySymbol ++ "0"
  | some q => currencySymbol ++ renderFixedD q (if q.den = 1 then 0 else 2)

end Part000

namespace FormatTs
/-! The formatting module `frontend/utils/format.ts`: a fixed number of
fraction digits (`decimals`, default `2`). -/

/-- `formatNumber` of `format.ts`: `NaN` renders as `'0.00'`; otherwise
`toLocaleString` with `minimumFractionDigits = maximumFractionDigits =
decimals` (default `2`). -/
def formatNumber (value : NumOrStr) (decimals : ℕ) : String :=
  match toNum value with
  | none => "0.00"
  | some q => renderFixedD q decimals

/-- `formatCurrency` of `format.ts`: the symbol (default `"$"`) prepended to
`formatNumber(value)` at the default `decimals = 2`. -/
def formatCurrency (value : NumOrStr) (currencySymbol : String) : String :=
  currencySymbol ++ formatNumber value 2

end FormatTs

/-- `parseFormattedNumber` (identical in `format.ts` and `part_000`): strip
commas, `parseFloat`, and `|| 0` — so `NaN` and `±0` both yield `0`. -/
def parseFormattedNumber (value : String) : ℚ :=
  let cleanValue := stripCommas value
  match parseFloat cleanValue with
  | none => 0
  | some q => if q = 0 then 0 else q

example : Part000.formatNumber (.num (some 5)) = "5" := by
  norm_num [Part000.formatNumber, toNum, renderFixedD, roundHalfNat]
  decide

example : Part000.formatNumber (.num (some (11 / 2))) = "5.50" := by
  have h : ⌊(100 : ℚ) * |(11 : ℚ) / 2| + 1 / 2⌋ = 550 := by
    rw [abs_of_nonneg (by norm_num)]
    norm_num [Int.floor_eq_iff]
  norm_num [Part000.formatNumber, toNum, renderFixedD, roundHalfNat, h]
  decide

example : FormatTs.formatNumber (.num (some 1234567)) 2 = "1,234,567.00" := by
  norm_num [FormatTs.formatNumber, toNum, renderFixedD, roundHalfNat]
  decide

example : Part000.formatNumber (.str "abc") = "0" := by decide
example : parseFormattedNumber "xyz" = 0 := by decide

namespace Api
/-! The axios response interceptor of `frontend/utils/api.ts`. -/

/-- The rejection an attempt can end with: `status` is
`error.response?.status` (`none` models a missing response object),
`code` is `error.code`. -/
structure ErrInfo where
  status : Option ℕ
  code : Option String
  message : String
deriving DecidableEq

/-- Outcome of one attempt of the underlying request. -/
inductive Outcome
  | success
  | failure (e : ErrInfo)
deriving DecidableEq

/-- What the interceptor hands back to the caller. -/
inductive ReqResult
  | ok
  | rejected (message : String)
  | noOutcome
deriving DecidableEq

/-- The message rewriting at the bottom of the error interceptor, in source
order: `ECONNABORTED` first, then missing response, then status 503. -/
def rewriteMessage (e : ErrInfo) : String :=
  if e.code = some "ECONNABORTED" then
    "Request timed out. Please check your internet connection."
  else if e.status = none then
    "Network error: " ++ e.message ++ ". Server may be unreachable."
  else if e.status = some 503 then
    "Server is waking up. Please try again in a moment."
  else e.message

/-- One run of the interceptor loop.  `retryFlag` and `retryCount` model the
mutable `config._retry` and `config._retryCount` carried on the axios
config; `os` lists the outcomes of the successive attempts of the
underlying request.  The returned list collects the backoff delays (ms)
awaited before each retry, in order. -/
def runInterceptor : Bool → ℕ → List Outcome → List ℕ × ReqResult
  | _, _, [] => ([], .noOutcome)
  | retryFlag, retryCount, o :: rest =>
    match o with
    | .success => ([], .ok)
    | .failure e =>
      if e.status = some 503 ∧ retryFlag = false then
        let c := retryCount + 1
        if c ≤ 3 then
          let r := runInterceptor true c rest
          (1000 * c :: r.1, r.2)
        else ([], .rejected (rewriteMessage e))
      else ([], .rejected (rewriteMessage e))

/-- A fresh request: `config._retry` unset, `config._retryCount`
undefined (`|| 0` makes it start at zero). -/
def runRequest (os : List Outcome) : List ℕ × ReqResult :=
  runInterceptor false 0 os

end Api

namespace Transactions
/-! `groupTransactionsByDate` of the Transactions screen (`part_005`). -/

/-- The `Transaction` interface of the Transactions screen. -/
structure Transaction where
  id : String
  type : String
  amount : ℚ
  category_name : String
  date : String
  note : Option String
  income_source : Option String

/-- One value of the `GroupedTransactions` record. -/
structure DateGroup where
  transactions : List Transaction
  totalIncome : ℚ
  totalExpense : ℚ
  isExpanded : Bool

/-- The mutation a transaction performs on its date's group: push the
transaction, then add its amount to `totalIncome` when
`txn.type === 'income'`, to `totalExpense` otherwise. -/
def applyTxn (txn : Transaction) (g : DateGroup) : DateGroup :=
  let g1 := { g with transactions := g.transactions ++ [txn] }
  if txn.type = "income" then
    { g1 with totalIncome := g1.totalIncome + txn.amount }
  else { g1 with totalExpense := g1.totalExpense + txn.amount }

/-- The loop body of `groupTransactionsByDate`: create the group keyed by
`txn.date` if absent (a JavaScript object keeps keys in insertion order,
modelled by an ordered association list), then apply the transaction to the
group at its key. -/
def groupStep (grouped : List (String × DateGroup)) (txn : Transaction) :
    List (String × DateGroup) :=
  let grouped :=
    if grouped.any (fun p => p.1 = txn.date) then grouped
    else grouped ++ [(txn.date, ⟨[], 0, 0, false⟩)]
  grouped.map (fun p => if p.1 = txn.date then (p.1, applyTxn txn p.2) else p)

/-- `groupTransactionsByDate`: fold the loop body over the fetched list. -/
def groupTransactionsByDate (txns : List Transaction) :
    List (String × DateGroup) :=
  txns.foldl groupStep []

end Transactions

namespace Insights
/-! `filterTransactionsByPeriod` and the chart-data builders of
`frontend/app/(tabs)/insights.tsx`. -/

/-- The `Transaction` interface of the Insights screen. -/
structure Transaction where
  id : String
  type : String
  amount : ℚ
  category_name : String
  date : String

/-- The `TimePeriod` union type. -/
inductive TimePeriod
  | today | yesterday | week | month | year | all | custom
deriving DecidableEq

/-- `filterTransactionsByPeriod`.  `dateValue` models the environment's
`new Date(string).getTime()` (epoch milliseconds); `now` is the current
time already moved to `23:59:59.999` of today, as the source does first.
`customStartDate` / `customEndDate` model the two state dates, already
normalised to the start and end of their days as the `custom` branch does
(`setHours(0,0,0,0)` / `setHours(23,59,59,999)`); the fixed offsets for
`startOfToday` and `startOfYesterday` assume no daylight-saving switch,
which no claim in scope depends on. -/
def filterTransactionsByPeriod (dateValue : String → ℤ)
    (timePeriod : TimePeriod) (customStartDate customEndDate : Option ℤ)
    (now : ℤ) (transactions : List Transaction) : List Transaction :=
  transactions.filter (fun t =>
    let transDate := dateValue t.date
    let startOfToday := now - 86399999
    let startOfYesterday := startOfToday - 86400000
    let diffTime := now - transDate
    let diffDays : ℚ := (diffTime : ℚ) / (1000 * 3600 * 24)
    match timePeriod with
    | .today => decide (startOfToday ≤ transDate ∧ transDate ≤ now)
    | .yesterday => decide (startOfYesterday ≤ transDate ∧ transDate < startOfToday)
    | .week => decide (diffDays ≤ 7)
    | .month => decide (diffDays ≤ 30)
    | .year => decide (diffDays ≤ 365)
    | .custom =>
      match customStartDate, customEndDate with
      | some s, some e => decide (s ≤ transDate ∧ transDate ≤ e)
      | _, _ => true
    | _ => true)

/-- A `react-native-gifted-charts` bar/chart datum as built here. -/
structure ChartEntry where
  value : ℚ
  label : String
  frontColor : String

/-- The label truncation of `getCategoryChartData`:
`name.length > 8 ? name.substring(0, 8) + '...' : name`. -/
def truncateLabel (name : String) : String :=
  if name.length > 8 then String.mk (name.toList.take 8) ++ "..." else name

/-- The `forEach` body building `categoryTotals`:
`categoryTotals[c] = (categoryTotals[c] || 0) + t.amount`, on an ordered
association list modelling the object's insertion-ordered keys. -/
def addCategoryAmount (totals : List (String × ℚ)) (t : Transaction) :
    List (String × ℚ) :=
  if totals.any (fun p => p.1 = t.category_name) then
    totals.map (fun p =>
      if p.1 = t.category_name then (p.1, p.2 + t.amount) else p)
  else totals ++ [(t.category_name, t.amount)]

/-- `categoryTotals` accumulated over a list of (already expense-filtered)
transactions. -/
def buildTotals (l : List Transaction) : List (String × ℚ) :=
  l.foldl addCategoryAmount []

/-- The color cycle of `getCategoryChartData`. -/
def categoryColors : List String :=
  ["#D32F2F", "#EF4444", "#F87171", "#FCA5A5", "#FECACA", "#FEE2E2"]

/-- `getCategoryChartData`: filter to the period, keep expenses, total by
category, sort descending by amount (`sort(([, a], [, b]) => b - a)` is a
stable descending sort), keep the first six, and map to chart entries. -/
def getCategoryChartData (dateValue : String → ℤ) (timePeriod : TimePeriod)
    (customStartDate customEndDate : Option ℤ) (now : ℤ)
    (transactions : List Transaction) : List ChartEntry :=
  let filtered := filterTransactionsByPeriod dateValue timePeriod
    customStartDate customEndDate now transactions
  let categoryTotals := buildTotals (filtered.filter (fun t => t.type = "expense"))
  let sorted := (categoryTotals.mergeSort (fun a b => decide (b.2 ≤ a.2))).take 6
  sorted.enum.map (fun ip =>
    ⟨ip.2.2, truncateLabel ip.2.1, categoryColors.getD (ip.1 % 6) ""⟩)

/-- `getIncomeExpenseBarData`: the two-bar income/expense aggregate over the
period-filtered list. -/
def getIncomeExpenseBarData (dateValue : String → ℤ) (timePeriod : TimePeriod)
    (customStartDate customEndDate : Option ℤ) (now : ℤ)
    (transactions : List Transaction) : List ChartEntry :=
  let filtered := filterTransactionsByPeriod dateValue timePeriod
    customStartDate customEndDate now transactions
  let income := (filtered.filter (fun t => t.type = "income")).foldl
    (fun sum t => sum + t.amount) 0
  let expense := (filtered.filter (fun t => t.type = "expense")).foldl
    (fun sum t => sum + t.amount) 0
  [⟨income, "Income", "#10B981"⟩, ⟨expense, "Expenses", "#EF4444"⟩]

end Insights

/-! ### Digit and grouping lemmas -/

theorem digitVal_digitChar (d : ℕ) (h : d < 10) :
    digitVal (Nat.digitChar d) = d := by
  interval_cases d <;> rfl

theorem isDigit_digitChar (d : ℕ) (h : d < 10) :
    (Nat.digitChar d).isDigit = true := by
  interval_cases d <;> rfl

theorem digitsToNat_append_single (xs : List Char) (c : Char) :
    digitsToNat (xs ++ [c]) = 10 * digitsToNat xs + digitVal c := by
  unfold digitsToNat
  rw [List.foldl_append]
  rfl

theorem mem_natDigitCharsAux_isDigit :
    ∀ fuel n, ∀ c ∈ natDigitCharsAux fuel n, c.isDigit = true := by
  intro fuel
  induction fuel with
  | zero => intro n c hc; simp [natDigitCharsAux] at hc
  | succ fuel ih =>
    intro n c hc
    rw [natDigitCharsAux] at hc
    split at hc
    · simp at hc
    · rcases List.mem_append.mp hc with h | h
      · exact ih _ c h
      · simp only [List.mem_singleton] at h
        subst h
        exact isDigit_digitChar _ (Nat.mod_lt _ (by norm_num))

theorem mem_natDigitChars_isDigit (n : ℕ) :
    ∀ c ∈ natDigitChars n, c.isDigit = true := by
  intro c hc
  rw [natDigitChars] at hc
  split at hc
  · simp only [List.mem_singleton] at hc
    subst hc
    rfl
  · exact mem_natDigitCharsAux_isDigit _ _ c hc

theorem digitsToNat_natDigitCharsAux :
    ∀ fuel n, n ≤ fuel → digitsToNat (natDigitCharsAux fuel n) = n := by
  intro fuel
  induction fuel with
  | zero => intro n hn; interval_cases n; rfl
  | succ fuel ih =>
    intro n hn
    rw [natDigitCharsAux]
    split
    · subst n; rfl
    · rename_i hne
      rw [digitsToNat_append_single, ih (n / 10) (by omega),
        digitVal_digitChar _ (Nat.mod_lt _ (by norm_num))]
      omega

theorem digitsToNat_natDigitChars (n : ℕ) :
    digitsToNat (natDigitChars n) = n := by
  rw [natDigitChars]
  split
  · subst n; rfl
  · exact digitsToNat_natDigitCharsAux n n le_rfl

theorem natDigitChars_ne_nil (n : ℕ) : natDigitChars n ≠ [] := by
  rw [natDigitChars]
  split
  · simp
  · rename_i hne
    cases n with
    | zero => exact absurd rfl hne
    | succ m =>
      rw [natDigitCharsAux]
      simp

theorem filter_group3RevAux :
    ∀ fuel l, (∀ c ∈ l, c ≠ ',') →
      (group3RevAux fuel l).filter (fun c => c ≠ ',') = l := by
  intro fuel
  induction fuel with
  | zero =>
    intro l hl
    exact List.filter_eq_self.mpr (fun c hc => by simpa using hl c hc)
  | succ fuel ih =>
    intro l hl
    rw [group3RevAux]
    split
    · exact List.filter_eq_self.mpr (fun c hc => by simpa using hl c hc)
    · rw [List.filter_append]
      have htake : (l.take 3).filter (fun c => c ≠ ',') = l.take 3 :=
        List.filter_eq_self.mpr
          (fun c hc => by simpa using hl c (List.mem_of_mem_take hc))
      have hdrop := ih (l.drop 3) (fun c hc => hl c (List.mem_of_mem_drop hc))
      rw [htake, List.filter_cons, hdrop]
      simp [List.take_append_drop]

theorem mem_group3RevAux :
    ∀ fuel l, ∀ c ∈ group3RevAux fuel l, c ∈ l ∨ c = ',' := by
  intro fuel
  induction fuel with
  | zero => intro l c hc; exact Or.inl hc
  | succ fuel ih =>
    intro l c hc
    rw [group3RevAux] at hc
    split at hc
    · exact Or.inl hc
    · rcases List.mem_append.mp hc with h | h
      · exact Or.inl (List.mem_of_mem_take h)
      · rcases List.mem_cons.mp h with h | h
        · exact Or.inr h
        · rcases ih _ c h with h | h
          · exact Or.inl (List.mem_of_mem_drop h)
          · exact Or.inr h

theorem filter_groupDigits (n : ℕ) :
    (groupDigits n).filter (fun c => c ≠ ',') = natDigitChars n := by
  rw [groupDigits, List.filter_reverse, filter_group3RevAux, List.reverse_reverse]
  intro c hc
  have := mem_natDigitChars_isDigit n c (List.mem_reverse.mp hc)
  intro h
  subst h
  simp [Char.isDigit] at this

theorem mem_groupDigits (n : ℕ) :
    ∀ c ∈ groupDigits n, c.isDigit = true ∨ c = ',' := by
  intro c hc
  rw [groupDigits, List.mem_reverse] at hc
  rcases mem_group3RevAux _ _ c hc with h | h
  · exact Or.inl (mem_natDigitChars_isDigit n c (List.mem_reverse.mp h))
  · exact Or.inr h

theorem length_fixedDigits : ∀ d k, (fixedDigits d k).length = d := by
  intro d
  induction d with
  | zero => intro k; rfl
  | succ d ih => intro k; simp [fixedDigits, ih]

theorem mem_fixedDigits_isDigit :
    ∀ d k, ∀ c ∈ fixedDigits d k, c.isDigit = true := by
  intro d
  induction d with
  | zero => intro k c hc; simp [fixedDigits] at hc
  | succ d ih =>
    intro k c hc
    rw [fixedDigits] at hc
    rcases List.mem_append.mp hc with h | h
    · exact ih _ c h
    · simp only [List.mem_singleton] at h
      subst h
      exact isDigit_digitChar _ (Nat.mod_lt _ (by norm_num))

theorem digitsToNat_fixedDigits :
    ∀ d k, digitsToNat (fixedDigits d k) = k % 10 ^ d := by
  intro d
  induction d with
  | zero => intro k; simp [fixedDigits, digitsToNat, Nat.mod_one]
  | succ d ih =>
    intro k
    rw [fixedDigits, digitsToNat_append_single, ih,
      digitVal_digitChar _ (Nat.mod_lt _ (by norm_num)),
      pow_succ, mul_comm (10 ^ d) 10, Nat.mod_mul]
    ring

/-! ### Scanning lemmas for the parseFloat model -/

theorem takeWhile_of_all {α : Type} (p : α → Bool) :
    ∀ l : List α, (∀ c ∈ l, p c = true) → l.takeWhile p = l := by
  intro l
  induction l with
  | nil => intro _; rfl
  | cons a l ih =>
    intro h
    rw [List.takeWhile_cons, h a (by simp), ih (fun c hc => h c (by simp [hc]))]
    simp

theorem dropWhile_of_all {α : Type} (p : α → Bool) :
    ∀ l : List α, (∀ c ∈ l, p c = true) → l.dropWhile p = [] := by
  intro l
  induction l with
  | nil => intro _; rfl
  | cons a l ih =>
    intro h
    rw [List.dropWhile_cons, h a (by simp), ih (fun c hc => h c (by simp [hc]))]
    simp

theorem takeWhile_append_stop {α : Type} (p : α → Bool) (y : α) (ys : List α)
    (hy : p y = false) :
    ∀ xs : List α, (∀ c ∈ xs, p c = true) →
      (xs ++ y :: ys).takeWhile p = xs := by
  intro xs
  induction xs with
  | nil => intro _; simp [List.takeWhile_cons, hy]
  | cons a xs ih =>
    intro h
    rw [List.cons_append, List.takeWhile_cons, h a (by simp),
      ih (fun c hc => h c (by simp [hc]))]
    simp

theorem dropWhile_append_stop {α : Type} (p : α → Bool) (y : α) (ys : List α)
    (hy : p y = false) :
    ∀ xs : List α, (∀ c ∈ xs, p c = true) →
      (xs ++ y :: ys).dropWhile p = y :: ys := by
  intro xs
  induction xs with
  | nil => intro _; simp [List.dropWhile_cons, hy]
  | cons a xs ih =>
    intro h
    rw [List.cons_append, List.dropWhile_cons, h a (by simp),
      ih (fun c hc => h c (by simp [hc]))]
    simp

theorem ws_false_of_isDigit (c : Char) (hc : c.isDigit = true) :
    jsWhitespace c = false := by
  rw [jsWhitespace]
  by_contra h
  simp only [Bool.not_eq_false, Bool.or_eq_true, decide_eq_true_eq] at h
  rcases h with ((h | h) | h) | h <;> (subst h; simp [Char.isDigit] at hc)

theorem ne_comma_of_isDigit (c : Char) (hc : c.isDigit = true) : c ≠ ',' := by
  intro h
  subst h
  simp [Char.isDigit] at hc

theorem ne_dot_of_isDigit (c : Char) (hc : c.isDigit = true) : c ≠ '.' := by
  intro h
  subst h
  simp [Char.isDigit] at hc

theorem parseUnsigned_int_frac (a : ℕ) (fs : List Char)
    (hfs : ∀ c ∈ fs, c.isDigit = true) :
    parseUnsigned (natDigitChars a ++ '.' :: fs) =
      some ((a : ℚ) + (digitsToNat fs : ℚ) / 10 ^ fs.length) := by
  rw [parseUnsigned]
  have hdot : Char.isDigit '.' = false := rfl
  rw [takeWhile_append_stop Char.isDigit '.' fs hdot _ (mem_natDigitChars_isDigit a),
    dropWhile_append_stop Char.isDigit '.' fs hdot _ (mem_natDigitChars_isDigit a)]
  simp only [takeWhile_of_all Char.isDigit fs hfs]
  rw [if_neg (by simp [natDigitChars_ne_nil a])]
  rw [digitsToNat_natDigitChars]

theorem toList_mk (l : List Char) : (String.mk l).toList = l := rfl

theorem parseFloat_cons_digit (c : Char) (t : List Char) (hc : c.isDigit = true) :
    parseFloat (String.mk (c :: t)) = parseUnsigned (c :: t) := by
  rw [parseFloat, toList_mk, List.dropWhile_cons, ws_false_of_isDigit c hc]
  simp only [Bool.false_eq_true, if_false]
  split
  · rename_i heq
    rw [List.cons.injEq] at heq
    have := ne_comma_of_isDigit c hc
    exact absurd heq.1.symm (by intro h; subst h; simp [Char.isDigit] at hc)
  · rename_i heq
    rw [List.cons.injEq] at heq
    exact absurd heq.1.symm (by intro h; subst h; simp [Char.isDigit] at hc)
  · rfl

theorem parseFloat_cons_neg (t : List Char) :
    parseFloat (String.mk ('-' :: t)) = (parseUnsigned t).map (fun q => -q) := by
  rw [parseFloat, toList_mk, List.dropWhile_cons,
    show jsWhitespace '-' = false from rfl]
  simp only [Bool.false_eq_true, if_false]

/-! ### Small helpers shared by several claims -/

theorem foldl_add_amount (l : List Insights.Transaction) (a : ℚ) :
    l.foldl (fun sum t => sum + t.amount) a =
      a + (l.map (fun t => t.amount)).sum := by
  induction l generalizing a with
  | nil => simp
  | cons t l ih => simp [List.foldl_cons, ih, add_assoc]

theorem runInterceptor_flag_no_retry (n : ℕ) (os : List Api.Outcome) :
    (Api.runInterceptor true n os).1 = [] := by
  cases os with
  | nil => rfl
  | cons o rest =>
    cases o with
    | success => rfl
    | failure e => simp [Api.runInterceptor]

/-- A 503 rejection as axios hands it to the interceptor. -/
def err503 : Api.ErrInfo := ⟨some 503, none, "Service Unavailable"⟩

/-- A timeout rejection (`error.code === 'ECONNABORTED'`, no response). -/
def errTimeout : Api.ErrInfo := ⟨none, some "ECONNABORTED", "timeout of 30000ms exceeded"⟩

/-! ### Claim theorems -/

/-- C8 (confirmed): in both formatting modules, `formatCurrency value symbol`
is exactly the currency symbol concatenated with the corresponding
`formatNumber` output (`format.ts` at its default `decimals = 2`), including
on unparseable input, where both sides produce the same zero default. -/
theorem formatCurrency_is_symbol_append_formatNumber (v : NumOrStr) (s : String) :
    Part000.formatCurrency v s = s ++ Part000.formatNumber v ∧
    FormatTs.formatCurrency v s = s ++ FormatTs.formatNumber v 2 := by
  constructor
  · cases h : toNum v <;> simp [Part000.formatCurrency, Part000.formatNumber, h]
  · rfl

/-- C3 (confirmed): an input whose numeric parse is `NaN` makes
`formatNumber` return a zero string (`'0'` in `part_000`, `'0.00'` in
`format.ts` for every `decimals`), and a string whose comma-stripped form
does not parse as a number makes `parseFormattedNumber` return `0`. -/
theorem malformed_input_yields_default :
    (∀ v : NumOrStr, toNum v = none →
      Part000.formatNumber v = "0" ∧ ∀ d : ℕ, FormatTs.formatNumber v d = "0.00") ∧
    (∀ s : String, parseFloat (stripCommas s) = none → parseFormattedNumber s = 0) := by
  refine ⟨fun v hv => ⟨?_, fun d => ?_⟩, fun s hs => ?_⟩
  · rw [Part000.formatNumber, hv]
  · rw [FormatTs.formatNumber, hv]
  · simp [parseFormattedNumber, hs]

theorem malformed_input_yields_default_witness :
    Part000.formatNumber (.str "abc") = "0" ∧
    FormatTs.formatNumber (.num none) 2 = "0.00" ∧
    parseFormattedNumber "not a number" = 0 :=
  ⟨(malformed_input_yields_default.1 (.str "abc") (by decide)).1,
   (malformed_input_yields_default.1 (.num none) rfl).2 2,
   malformed_input_yields_default.2 "not a number" (by decide)⟩

/-- C2 fails on the code: with a request that yields 503 three times and
then succeeds, the claimed policy (up to 3 retries, waiting 1000·n ms before
the n-th) would wait 1000, 2000, 3000 ms and succeed, but the interceptor
retries exactly once (the `_retry` flag blocks later retries before
`_retryCount <= 3` is ever tested again) and rejects. -/
theorem interceptor_counterexample :
    Api.runRequest [.failure err503, .failure err503, .failure err503, .success] =
      ([1000], .rejected "Server is waking up. Please try again in a moment.") ∧
    ([1000] : List ℕ) ≠ [1000, 2000, 3000] := by
  constructor
  · decide
  · decide

/-- C2 (amended): the response interceptor retries with backoff if and only
if the response status is 503 and the request has not been retried before,
so it performs at most one retry in total, waiting 1000 ms before it; every
other error (non-503 status, timeout, no response) is rejected to the
caller without any retry, and a second failure of the retried request is
rejected as well. -/
theorem interceptor_retries_at_most_once (os : List Api.Outcome) :
    ((Api.runRequest os).1.length ≤ 1) ∧
    (∀ e rest, os = .failure e :: rest →
      ((e.status = some 503 →
        (Api.runRequest os).1 = [1000] ∧
        (Api.runRequest os).2 =
          (match rest with
           | [] => Api.ReqResult.noOutcome
           | .success :: _ => Api.ReqResult.ok
           | .failure e2 :: _ => Api.ReqResult.rejected (Api.rewriteMessage e2))) ∧
       (¬ e.status = some 503 →
        Api.runRequest os = ([], .rejected (Api.rewriteMessage e))))) := by
  constructor
  · rw [Api.runRequest]
    cases os with
    | nil => simp [Api.runInterceptor]
    | cons o rest =>
      cases o with
      | success => simp [Api.runInterceptor]
      | failure e =>
        rw [Api.runInterceptor]
        split
        · simp [runInterceptor_flag_no_retry]
        · simp
  · intro e rest hos
    subst hos
    constructor
    · intro h503
      rw [Api.runRequest, Api.runInterceptor, if_pos ⟨h503, rfl⟩, if_pos (by norm_num)]
      cases rest with
      | nil => exact ⟨rfl, rfl⟩
      | cons o2 rest2 =>
        cases o2 with
        | success => exact ⟨rfl, rfl⟩
        | failure e2 =>
          rw [Api.runInterceptor]
          simp
    · intro hne
      rw [Api.runRequest, Api.runInterceptor]
      rw [if_neg (by simp [hne])]

theorem interceptor_retries_at_most_once_witness :
    (Api.runRequest [.failure err503, .success]).1 = [1000] ∧
    (Api.runRequest [.failure err503, .success]).2 = Api.ReqResult.ok ∧
    Api.runRequest [.failure errTimeout] =
      ([], .rejected "Request timed out. Please check your internet connection.") := by
  have h := ((interceptor_retries_at_most_once
    [.failure err503, .success]).2 err503 [.success] rfl).1 (by decide)
  have h2 := ((interceptor_retries_at_most_once
    [.failure errTimeout]).2 errTimeout [] rfl).2 (by decide)
  refine ⟨h.1, h.2, ?_⟩
  rw [h2]
  decide

/-- C6 (confirmed): `filterTransactionsByPeriod` is a pure single-pass
filter — for every date semantics, period, custom range and input list the
result is a subsequence of the input (each output element is an input
element, in the same relative order); the input itself is a value and is
unchanged. -/
theorem filterTransactionsByPeriod_sublist (dv : String → ℤ)
    (p : Insights.TimePeriod) (cs ce : Option ℤ) (now : ℤ)
    (txns : List Insights.Transaction) :
    (Insights.filterTransactionsByPeriod dv p cs ce now txns).Sublist txns := by
  rw [Insights.filterTransactionsByPeriod]
  exact List.filter_sublist txns

/-- C7 (confirmed): the income-versus-expense aggregate is exactly two
entries: the first value is the sum of the amounts of type-`income`
transactions of the period-filtered list, the second the sum of the
amounts of its type-`expense` transactions. -/
theorem getIncomeExpenseBarData_two_sums (dv : String → ℤ)
    (p : Insights.TimePeriod) (cs ce : Option ℤ) (now : ℤ)
    (txns : List Insights.Transaction) :
    Insights.getIncomeExpenseBarData dv p cs ce now txns =
      [⟨(((Insights.filterTransactionsByPeriod dv p cs ce now txns).filter
            (fun t => t.type = "income")).map (fun t => t.amount)).sum,
        "Income", "#10B981"⟩,
       ⟨(((Insights.filterTransactionsByPeriod dv p cs ce now txns).filter
            (fun t => t.type = "expense")).map (fun t => t.amount)).sum,
        "Expenses", "#EF4444"⟩] := by
  rw [Insights.getIncomeExpenseBarData]
  simp only [foldl_add_amount, zero_add]

/-- The bound arithmetic of the period filter: the code's
`diffDays = (now - transDate) / 86 400 000 ≤ bound` test is exactly a lower
bound on the transaction date. -/
theorem diffDays_le_iff (now d bound : ℤ) :
    ((now - d : ℤ) : ℚ) / (1000 * 3600 * 24) ≤ (bound : ℚ) ↔
      now - bound * 86400000 ≤ d := by
  rw [div_le_iff₀ (by norm_num)]
  have h : (bound : ℚ) * (1000 * 3600 * 24) = ((bound * 86400000 : ℤ) : ℚ) := by
    push_cast
    ring
  rw [h, Int.cast_le]
  omega

/-- The week/month/year/all behaviour C5 describes, written from the claim's
words for comparison with the code's filter: a date range from 7/30/365
days before the end of the current day up to the end of the current day. -/
def specRangeFilter (dateValue : String → ℤ) (timePeriod : Insights.TimePeriod)
    (now : ℤ) (transactions : List Insights.Transaction) :
    List Insights.Transaction :=
  transactions.filter (fun t =>
    let d := dateValue t.date
    match timePeriod with
    | .week => decide (now - 7 * 86400000 ≤ d ∧ d ≤ now)
    | .month => decide (now - 30 * 86400000 ≤ d ∧ d ≤ now)
    | .year => decide (now - 365 * 86400000 ≤ d ∧ d ≤ now)
    | _ => true)

/-- A transaction dated one day after `now` (its date string maps to epoch
offset 86 400 000 while `now = 0`). -/
def cexTx : Insights.Transaction := ⟨"t1", "expense", 10, "Food", "2099-01-01"⟩

/-- Date semantics sending every string one day past `now = 0`. -/
def cexDateValue : String → ℤ := fun _ => 86400000

/-- C5 fails on the code: the week branch tests only
`diffDays <= 7` and has no upper bound, so a transaction dated after the
end of the current day is included, while the claimed range
`[now - 7 days, now]` excludes it. -/
theorem period_filter_counterexample :
    Insights.filterTransactionsByPeriod cexDateValue .week none none 0 [cexTx] =
      [cexTx] ∧
    specRangeFilter cexDateValue .week 0 [cexTx] = [] := by
  constructor
  · rw [Insights.filterTransactionsByPeriod, List.filter_cons]
    norm_num [cexDateValue]
  · rw [specRangeFilter, List.filter_cons]
    norm_num [cexDateValue]

/-- C5 (amended): under week/month/year the filter keeps exactly those
transactions dated no earlier than 7/30/365 days before the end of the
current day — there is no upper bound, so future-dated transactions are
kept too; under `all` it keeps every transaction. -/
theorem filterTransactionsByPeriod_ranges (dv : String → ℤ) (cs ce : Option ℤ)
    (now : ℤ) (txns : List Insights.Transaction) (t : Insights.Transaction) :
    (t ∈ Insights.filterTransactionsByPeriod dv .week cs ce now txns ↔
      t ∈ txns ∧ now - 7 * 86400000 ≤ dv t.date) ∧
    (t ∈ Insights.filterTransactionsByPeriod dv .month cs ce now txns ↔
      t ∈ txns ∧ now - 30 * 86400000 ≤ dv t.date) ∧
    (t ∈ Insights.filterTransactionsByPeriod dv .year cs ce now txns ↔
      t ∈ txns ∧ now - 365 * 86400000 ≤ dv t.date) ∧
    Insights.filterTransactionsByPeriod dv .all cs ce now txns = txns := by
  refine ⟨?_, ?_, ?_, ?_⟩
  · rw [Insights.filterTransactionsByPeriod, List.mem_filter]
    simp only [decide_eq_true_eq]
    rw [show (7 : ℚ) = ((7 : ℤ) : ℚ) by norm_num, diffDays_le_iff]
  · rw [Insights.filterTransactionsByPeriod, List.mem_filter]
    simp only [decide_eq_true_eq]
    rw [show (30 : ℚ) = ((30 : ℤ) : ℚ) by norm_num, diffDays_le_iff]
  · rw [Insights.filterTransactionsByPeriod, List.mem_filter]
    simp only [decide_eq_true_eq]
    rw [show (365 : ℚ) = ((365 : ℤ) : ℚ) by norm_num, diffDays_le_iff]
  · rw [Insights.filterTransactionsByPeriod]
    exact List.filter_true txns

/-- True on every character except the decimal point. -/
def notDot (c : Char) : Bool := c ≠ '.'

/-- How many fraction digits a formatted string displays: the length of the
suffix after the first `'.'`, zero when no `'.'` occurs. -/
def fracCount (s : String) : ℕ :=
  match s.toList.dropWhile notDot with
  | [] => 0
  | _ :: r => r.length

theorem no_dot_groupDigits (n : ℕ) :
    ∀ c ∈ groupDigits n, notDot c = true := by
  intro c hc
  rcases mem_groupDigits n c hc with h | h
  · simpa [notDot] using ne_dot_of_isDigit c h
  · subst h
    rfl

theorem fracCount_renderFixedD_pos (q : ℚ) (d : ℕ) (hd : ¬ d = 0) :
    fracCount (renderFixedD q d) = d := by
  rw [renderFixedD, fracCount]
  simp only [if_neg hd, toList_mk]
  have hA := no_dot_groupDigits (roundHalfNat (10 ^ d * |q|) / 10 ^ d)
  by_cases hq : q < 0
  · rw [if_pos hq]
    simp only [List.dropWhile_cons, show notDot '-' = true from rfl, if_true]
    rw [dropWhile_append_stop notDot '.' _ rfl _ hA]
    simp [length_fixedDigits]
  · rw [if_neg hq, dropWhile_append_stop notDot '.' _ rfl _ hA]
    simp [length_fixedDigits]

theorem fracCount_renderFixedD_zero (q : ℚ) :
    fracCount (renderFixedD q 0) = 0 := by
  rw [renderFixedD, fracCount]
  by_cases hq : q < 0
  · simp [hq, toList_mk, List.dropWhile_cons,
      dropWhile_of_all notDot _ (no_dot_groupDigits _), notDot]
  · simp [hq, toList_mk,
      dropWhile_of_all notDot _ (no_dot_groupDigits _)]

/-- The display rule C1 asserts, for one formatting function: exactly two
fraction digits displayed when the parsed value has a nonzero fractional
part, none when it is an integer. -/
def conditionalDecimalDisplay (fmt : NumOrStr → String) : Prop :=
  ∀ v q, toNum v = some q → fracCount (fmt v) = if q.den = 1 then 0 else 2

/-- C1 fails on the code for the `format.ts` variant: `formatNumber(5)`
there renders `"5.00"` — two fraction digits for an integer value — because
that module always uses `minimumFractionDigits = maximumFractionDigits =
decimals` (default 2) instead of the conditional display of `part_000`. -/
theorem formatTs_formatNumber_counterexample :
    ¬ conditionalDecimalDisplay (fun v => FormatTs.formatNumber v 2) := by
  intro h
  have h5 := h (.num (some 5)) 5 rfl
  simp only at h5
  rw [show FormatTs.formatNumber (.num (some 5)) 2 = renderFixedD 5 2 from rfl,
    fracCount_renderFixedD_pos 5 2 (by norm_num),
    if_pos (by decide : (5 : ℚ).den = 1)] at h5
  exact absurd h5 (by decide)

theorem fracCount_dollar_append (s : String) :
    fracCount ("$" ++ s) = fracCount s := by
  rw [fracCount, fracCount]
  rfl

/-- C1 (amended): the conditional decimal display holds for `part_000`'s
`formatNumber` and `formatCurrency` — for every successfully parsed value
the formatted string shows exactly two fraction digits when the value has a
nonzero fractional part and none when it is an integer — while `format.ts`'s
`formatNumber` always shows exactly two fraction digits (its default
`decimals`), also on integers. -/
theorem conditional_decimal_display_located :
    conditionalDecimalDisplay Part000.formatNumber ∧
    conditionalDecimalDisplay (fun v => Part000.formatCurrency v "$") ∧
    (∀ v q, toNum v = some q → fracCount (FormatTs.formatNumber v 2) = 2) := by
  refine ⟨fun v q hv => ?_, fun v q hv => ?_, fun v q hv => ?_⟩
  · have hEq : Part000.formatNumber v = renderFixedD q (if q.den = 1 then 0 else 2) := by
      rw [Part000.formatNumber, hv]
    rw [hEq]
    by_cases hden : q.den = 1
    · rw [if_pos hden, fracCount_renderFixedD_zero]
    · rw [if_neg hden, fracCount_renderFixedD_pos q 2 (by norm_num)]
  · have hEq : Part000.formatCurrency v "$" =
        "$" ++ renderFixedD q (if q.den = 1 then 0 else 2) := by
      rw [Part000.formatCurrency, hv]
    show fracCount (Part000.formatCurrency v "$") = if q.den = 1 then 0 else 2
    rw [hEq, fracCount_dollar_append]
    by_cases hden : q.den = 1
    · rw [if_pos hden, fracCount_renderFixedD_zero]
    · rw [if_neg hden, fracCount_renderFixedD_pos q 2 (by norm_num)]
  · have hEq : FormatTs.formatNumber v 2 = renderFixedD q 2 := by
      rw [FormatTs.formatNumber, hv]
    rw [hEq, fracCount_renderFixedD_pos q 2 (by norm_num)]

theorem conditional_decimal_display_located_witness :
    fracCount (Part000.formatNumber (.num (some 5))) = 0 ∧
    fracCount (Part000.formatCurrency (.num (some 5)) "$") = 0 ∧
    fracCount (FormatTs.formatNumber (.num (some 5)) 2) = 2 := by
  have h1 := conditional_decimal_display_located.1 (.num (some 5)) 5 rfl
  have h2 := conditional_decimal_display_located.2.1 (.num (some 5)) 5 rfl
  have h3 := conditional_decimal_display_located.2.2 (.num (some 5)) 5 rfl
  rw [if_pos (by decide : (5 : ℚ).den = 1)] at h1 h2
  exact ⟨h1, h2, h3⟩

/-! ### Round-trip of formatting and parsing (C9) -/

theorem roundHalfNat_cast (x : ℚ) (hx : 0 ≤ x) :
    ((roundHalfNat x : ℕ) : ℚ) = ((⌊x + 1 / 2⌋ : ℤ) : ℚ) := by
  rw [roundHalfNat]
  have h0 : (0 : ℤ) ≤ ⌊x + 1 / 2⌋ := Int.le_floor.mpr (by push_cast; linarith)
  exact_mod_cast Int.toNat_of_nonneg h0

theorem div_mod_value (m d : ℕ) :
    ((m / 10 ^ d : ℕ) : ℚ) + ((m % 10 ^ d : ℕ) : ℚ) / (10 : ℚ) ^ d =
      (m : ℚ) / 10 ^ d := by
  have hp : ((10 : ℚ) ^ d) ≠ 0 := by positivity
  field_simp
  have h := Nat.div_add_mod m (10 ^ d)
  have hq : ((10 ^ d : ℕ) : ℚ) * ((m / 10 ^ d : ℕ) : ℚ) +
      ((m % 10 ^ d : ℕ) : ℚ) = (m : ℚ) := by
    exact_mod_cast congrArg (Nat.cast : ℕ → ℚ) h
  push_cast at hq ⊢
  linarith

theorem stripCommas_renderFixedD (q : ℚ) (d : ℕ) (hd : ¬ d = 0) :
    stripCommas (renderFixedD q d) =
      String.mk ((if q < 0 then ['-'] else []) ++
        (natDigitChars (roundHalfNat (10 ^ d * |q|) / 10 ^ d) ++
          '.' :: fixedDigits d (roundHalfNat (10 ^ d * |q|) % 10 ^ d))) := by
  rw [renderFixedD, stripCommas]
  simp only [if_neg hd, toList_mk]
  have hgd := filter_groupDigits (roundHalfNat (10 ^ d * |q|) / 10 ^ d)
  have hfd : (fixedDigits d (roundHalfNat (10 ^ d * |q|) % 10 ^ d)).filter
      (fun c => c ≠ ',') = fixedDigits d (roundHalfNat (10 ^ d * |q|) % 10 ^ d) :=
    List.filter_eq_self.mpr (fun c hc => by
      simpa using ne_comma_of_isDigit c (mem_fixedDigits_isDigit d _ c hc))
  by_cases hq : q < 0
  · rw [if_pos hq, if_pos hq]
    simp only [List.filter_cons, List.filter_append, hgd, hfd]
    simp
  · rw [if_neg hq, if_neg hq]
    simp only [List.filter_cons, List.filter_append, hgd, hfd]
    simp

theorem parseFloat_digits_frac (a : ℕ) (fs : List Char)
    (hfs : ∀ c ∈ fs, c.isDigit = true) :
    parseFloat (String.mk (natDigitChars a ++ '.' :: fs)) =
      some ((a : ℚ) + (digitsToNat fs : ℚ) / 10 ^ fs.length) := by
  obtain ⟨c, t, hct⟩ : ∃ c t, natDigitChars a = c :: t := by
    cases h : natDigitChars a with
    | nil => exact absurd h (natDigitChars_ne_nil a)
    | cons c t => exact ⟨c, t, rfl⟩
  have hc : c.isDigit = true := by
    apply mem_natDigitChars_isDigit a
    rw [hct]
    simp
  rw [hct, List.cons_append, parseFloat_cons_digit c _ hc, ← List.cons_append,
    ← hct, parseUnsigned_int_frac a fs hfs]

theorem parseFormattedNumber_of_parseFloat (s : String) (v : ℚ)
    (h : parseFloat (stripCommas s) = some v) :
    parseFormattedNumber s = if v = 0 then 0 else v := by
  rw [parseFormattedNumber, h]

/-- Modelled from the claim's words: the value "rounded to two decimal
places", with the half-away-from-zero tie rule the formatter's `Intl`
backend applies: `±⌊100·|x| + 1/2⌋ / 100`. -/
def roundToTwoDecimals (q : ℚ) : ℚ :=
  if q < 0 then -(((⌊100 * |q| + 1 / 2⌋ : ℤ) : ℚ) / 100)
  else ((⌊100 * |q| + 1 / 2⌋ : ℤ) : ℚ) / 100

theorem renderFixedD_roundTrip (q : ℚ) :
    parseFormattedNumber (renderFixedD q 2) = roundToTwoDecimals q := by
  have habs : (0 : ℚ) ≤ 10 ^ 2 * |q| := by positivity
  have hmcast := roundHalfNat_cast (10 ^ 2 * |q|) habs
  have hlt : roundHalfNat (10 ^ 2 * |q|) % 10 ^ 2 < 10 ^ 2 :=
    Nat.mod_lt _ (by norm_num)
  have hval : ((roundHalfNat (10 ^ 2 * |q|) / 10 ^ 2 : ℕ) : ℚ) +
      (digitsToNat (fixedDigits 2 (roundHalfNat (10 ^ 2 * |q|) % 10 ^ 2)) : ℚ) /
        10 ^ (fixedDigits 2 (roundHalfNat (10 ^ 2 * |q|) % 10 ^ 2)).length =
      ((⌊100 * |q| + 1 / 2⌋ : ℤ) : ℚ) / 100 := by
    rw [digitsToNat_fixedDigits, Nat.mod_eq_of_lt hlt, length_fixedDigits,
      div_mod_value, show (100 : ℚ) * |q| = 10 ^ 2 * |q| by norm_num, ← hmcast]
    norm_num
  by_cases hq : q < 0
  · have hpf : parseFloat (stripCommas (renderFixedD q 2)) =
        some (-(((⌊100 * |q| + 1 / 2⌋ : ℤ) : ℚ) / 100)) := by
      rw [stripCommas_renderFixedD q 2 (by norm_num), if_pos hq,
        List.singleton_append, parseFloat_cons_neg,
        parseUnsigned_int_frac _ _ (mem_fixedDigits_isDigit 2 _)]
      rw [Option.map_some', hval]
    rw [parseFormattedNumber_of_parseFloat _ _ hpf, roundToTwoDecimals, if_pos hq]
    split_ifs with h0
    · exact h0.symm
    · rfl
  · have hpf : parseFloat (stripCommas (renderFixedD q 2)) =
        some (((⌊100 * |q| + 1 / 2⌋ : ℤ) : ℚ) / 100) := by
      rw [stripCommas_renderFixedD q 2 (by norm_num), if_neg hq, List.nil_append,
        parseFloat_digits_frac _ _ (mem_fixedDigits_isDigit 2 _), hval]
    rw [parseFormattedNumber_of_parseFloat _ _ hpf, roundToTwoDecimals, if_neg hq]
    split_ifs with h0
    · exact h0.symm
    · rfl

/-- C9 (confirmed): for every finite number `x`,
`parseFormattedNumber(formatNumber(x))` (the `format.ts` pair, `decimals`
at its default 2) is `x` rounded to two decimal places — the thousands
separators inserted by formatting are fully removed by parsing. -/
theorem parse_format_roundTrip (q : ℚ) :
    parseFormattedNumber (FormatTs.formatNumber (.num (some q)) 2) =
      roundToTwoDecimals q :=
  renderFixedD_roundTrip q

/-! ### Grouping by date (C4) -/

namespace Transactions

theorem applyTxn_transactions (txn : Transaction) (g : DateGroup) :
    (applyTxn txn g).transactions = g.transactions ++ [txn] := by
  rw [applyTxn]
  split <;> rfl

theorem applyTxn_totalIncome (txn : Transaction) (g : DateGroup) :
    (applyTxn txn g).totalIncome =
      if txn.type = "income" then g.totalIncome + txn.amount
      else g.totalIncome := by
  rw [applyTxn]
  split <;> simp_all

theorem applyTxn_totalExpense (txn : Transaction) (g : DateGroup) :
    (applyTxn txn g).totalExpense =
      if txn.type = "income" then g.totalExpense
      else g.totalExpense + txn.amount := by
  rw [applyTxn]
  split <;> simp_all

/-- The invariant maintained by `groupTransactionsByDate`'s fold: keys are
distinct, every processed transaction has its date among the keys, each
group holds exactly the processed transactions of its key in input order,
and each group's totals are the income / non-income amount sums of its own
transaction list. -/
def GroupInv (processed : List Transaction) (acc : List (String × DateGroup)) : Prop :=
  (acc.map Prod.fst).Nodup ∧
  (∀ t ∈ processed, ∃ p ∈ acc, p.1 = t.date) ∧
  (∀ p ∈ acc, p.2.transactions = processed.filter (fun t => t.date = p.1)) ∧
  (∀ p ∈ acc,
    p.2.totalIncome =
      ((p.2.transactions.filter (fun t => t.type = "income")).map
        (fun t => t.amount)).sum ∧
    p.2.totalExpense =
      ((p.2.transactions.filter (fun t => ¬ t.type = "income")).map
        (fun t => t.amount)).sum)

theorem map_upd_inv (processed : List Transaction) (txn : Transaction)
    (acc : List (String × DateGroup))
    (hnd : (acc.map Prod.fst).Nodup)
    (hex : ∀ t ∈ processed, ∃ p ∈ acc, p.1 = t.date)
    (htr : ∀ p ∈ acc, p.2.transactions = processed.filter (fun t => t.date = p.1))
    (htot : ∀ p ∈ acc,
      p.2.totalIncome =
        ((p.2.transactions.filter (fun t => t.type = "income")).map
          (fun t => t.amount)).sum ∧
      p.2.totalExpense =
        ((p.2.transactions.filter (fun t => ¬ t.type = "income")).map
          (fun t => t.amount)).sum)
    (hkey : ∃ p ∈ acc, p.1 = txn.date) :
    GroupInv (processed ++ [txn])
      (acc.map (fun p => if p.1 = txn.date then (p.1, applyTxn txn p.2) else p)) := by
  set upd : String × DateGroup → String × DateGroup :=
    fun p => if p.1 = txn.date then (p.1, applyTxn txn p.2) else p with hupd
  have hfst : ∀ p : String × DateGroup, (upd p).1 = p.1 := by
    intro p
    show (if p.1 = txn.date then (p.1, applyTxn txn p.2) else p).1 = p.1
    split <;> rfl
  have hkeys : (acc.map upd).map Prod.fst = acc.map Prod.fst := by
    rw [List.map_map]
    exact List.map_congr_left (fun p _ => hfst p)
  refine ⟨by rw [hkeys]; exact hnd, ?_, ?_, ?_⟩
  · intro t ht
    rcases List.mem_append.mp ht with ht | ht
    · obtain ⟨p, hp, hpd⟩ := hex t ht
      exact ⟨upd p, List.mem_map_of_mem upd hp, (hfst p).trans hpd⟩
    · rw [List.mem_singleton] at ht
      subst ht
      obtain ⟨p, hp, hpd⟩ := hkey
      exact ⟨upd p, List.mem_map_of_mem upd hp, (hfst p).trans hpd⟩
  · intro p' hp'
    obtain ⟨p, hp, hpe⟩ := List.mem_map.mp hp'
    subst hpe
    rw [List.filter_append]
    by_cases hpd : p.1 = txn.date
    · rw [hupd]
      simp only [if_pos hpd]
      rw [applyTxn_transactions, htr p hp]
      have : List.filter (fun t => decide (t.date = p.1)) [txn] = [txn] := by
        simp [hpd.symm]
      rw [this]
    · rw [hupd]
      simp only [if_neg hpd]
      rw [htr p hp]
      have : List.filter (fun t => decide (t.date = p.1)) [txn] = [] := by
        simp
        intro hc
        exact hpd (hc.symm)
      rw [this, List.append_nil]
  · intro p' hp'
    obtain ⟨p, hp, hpe⟩ := List.mem_map.mp hp'
    subst hpe
    by_cases hpd : p.1 = txn.date
    · rw [hupd]
      simp only [if_pos hpd]
      obtain ⟨hgi, hge⟩ := htot p hp
      constructor
      · rw [applyTxn_totalIncome, applyTxn_transactions]
        by_cases hty : txn.type = "income"
        · rw [if_pos hty]
          simp [List.filter_append, hty, hgi]
        · rw [if_neg hty]
          simp [List.filter_append, hty, hgi]
      · rw [applyTxn_totalExpense, applyTxn_transactions]
        by_cases hty : txn.type = "income"
        · rw [if_pos hty]
          simp [List.filter_append, hty, hge]
        · rw [if_neg hty]
          simp [List.filter_append, hty, hge]
    · rw [hupd]
      simp only [if_neg hpd]
      exact htot p hp

theorem groupStep_inv (processed : List Transaction)
    (acc : List (String × DateGroup)) (txn : Transaction)
    (h : GroupInv processed acc) :
    GroupInv (processed ++ [txn]) (groupStep acc txn) := by
  obtain ⟨hnd, hex, htr, htot⟩ := h
  rw [groupStep]
  by_cases hany : acc.any (fun p => p.1 = txn.date)
  · simp only [if_pos hany]
    obtain ⟨p, hp, hpd⟩ := List.any_eq_true.mp hany
    exact map_upd_inv processed txn acc hnd hex htr htot
      ⟨p, hp, by simpa using hpd⟩
  · simp only [if_neg hany]
    have hfresh : ∀ p ∈ acc, ¬ p.1 = txn.date := by
      intro p hp hpd
      exact hany (List.any_eq_true.mpr ⟨p, hp, by simpa using hpd⟩)
    have hnone : ∀ t ∈ processed, ¬ t.date = txn.date := by
      intro t ht htd
      obtain ⟨p, hp, hpd⟩ := hex t ht
      exact hfresh p hp (hpd.trans htd)
    apply map_upd_inv
    · rw [List.map_append]
      simp only [List.map_cons, List.map_nil]
      rw [List.nodup_append]
      refine ⟨hnd, by simp, ?_⟩
      intro a ha hb
      simp only [List.mem_singleton] at hb
      subst hb
      obtain ⟨p, hp, hpd⟩ := List.mem_map.mp ha
      exact hfresh p hp hpd
    · intro t ht
      obtain ⟨p, hp, hpd⟩ := hex t ht
      exact ⟨p, List.mem_append_left _ hp, hpd⟩
    · intro p hp
      rcases List.mem_append.mp hp with hp | hp
      · exact htr p hp
      · rw [List.mem_singleton] at hp
        subst hp
        simp only
        symm
        rw [List.eq_nil_iff_forall_not_mem]
        intro t ht
        rw [List.mem_filter] at ht
        exact hnone t ht.1 (by simpa using ht.2)
    · intro p hp
      rcases List.mem_append.mp hp with hp | hp
      · exact htot p hp
      · rw [List.mem_singleton] at hp
        subst hp
        simp
    · exact ⟨(txn.date, ⟨[], 0, 0, false⟩), List.mem_append_right _ (by simp), rfl⟩

theorem foldl_groupStep_inv (l : List Transaction) :
    ∀ (processed : List Transaction) (acc : List (String × DateGroup)),
      GroupInv processed acc → GroupInv (processed ++ l) (l.foldl groupStep acc) := by
  induction l with
  | nil =>
    intro processed acc h
    simpa using h
  | cons x l ih =>
    intro processed acc h
    have h2 := ih (processed ++ [x]) (groupStep acc x) (groupStep_inv processed acc x h)
    simpa [List.append_assoc] using h2

end Transactions

/-- C4 (confirmed): `groupTransactionsByDate` partitions its input — group
keys are distinct, every transaction's date appears as a key, the group
keyed by a date holds exactly the input transactions with that date (in
input order, so each transaction lands in exactly one group), and each
group's `totalIncome` / `totalExpense` are the sums of the amounts of its
type-`income` / remaining transactions. -/
theorem groupTransactionsByDate_partitions (txns : List Transactions.Transaction) :
    ((Transactions.groupTransactionsByDate txns).map Prod.fst).Nodup ∧
    (∀ t ∈ txns, ∃ p ∈ Transactions.groupTransactionsByDate txns, p.1 = t.date) ∧
    (∀ p ∈ Transactions.groupTransactionsByDate txns,
      p.2.transactions = txns.filter (fun t => t.date = p.1)) ∧
    (∀ p ∈ Transactions.groupTransactionsByDate txns,
      p.2.totalIncome =
        ((p.2.transactions.filter (fun t => t.type = "income")).map
          (fun t => t.amount)).sum ∧
      p.2.totalExpense =
        ((p.2.transactions.filter (fun t => ¬ t.type = "income")).map
          (fun t => t.amount)).sum) := by
  have h := Transactions.foldl_groupStep_inv txns [] []
    ⟨by simp, by simp, by simp, by simp⟩
  rw [List.nil_append] at h
  exact h



theorem groupTransactionsByDate_partitions_witness :
    ∃ p ∈ Transactions.groupTransactionsByDate
      [⟨"a", "income", 7, "Salary", "2024-01-01", none, none⟩],
      p.1 = "2024-01-01" :=
  (groupTransactionsByDate_partitions
    [⟨"a", "income", 7, "Salary", "2024-01-01", none, none⟩]).2.1
    ⟨"a", "income", 7, "Salary", "2024-01-01", none, none⟩ (by simp)

/-! ### Category chart data (C10) -/

namespace Insights

/-- The invariant of the `categoryTotals` fold: keys are distinct, every
processed transaction's category is among them, and each pair holds the
amount sum of its category over the processed list. -/
def TotalsInv (processed : List Transaction) (totals : List (String × ℚ)) : Prop :=
  (totals.map Prod.fst).Nodup ∧
  (∀ t ∈ processed, t.category_name ∈ totals.map Prod.fst) ∧
  (∀ p ∈ totals, p.2 =
    ((processed.filter (fun t => t.category_name = p.1)).map
      (fun t => t.amount)).sum)

theorem addCategoryAmount_inv (processed : List Transaction)
    (totals : List (String × ℚ)) (t : Transaction)
    (h : TotalsInv processed totals) :
    TotalsInv (processed ++ [t]) (addCategoryAmount totals t) := by
  obtain ⟨hnd, hmem, hval⟩ := h
  rw [addCategoryAmount]
  have hpos : List.filter (fun u => decide (u.category_name = t.category_name)) [t] =
      [t] := by simp
  by_cases hany : totals.any (fun p => p.1 = t.category_name)
  · simp only [if_pos hany]
    set upd : String × ℚ → String × ℚ :=
      fun p => if p.1 = t.category_name then (p.1, p.2 + t.amount) else p with hupd
    have hfst : ∀ p : String × ℚ, (upd p).1 = p.1 := by
      intro p
      show (if p.1 = t.category_name then (p.1, p.2 + t.amount) else p).1 = p.1
      split <;> rfl
    have hkeys : (totals.map upd).map Prod.fst = totals.map Prod.fst := by
      rw [List.map_map]
      exact List.map_congr_left (fun p _ => hfst p)
    refine ⟨by rw [hkeys]; exact hnd, ?_, ?_⟩
    · intro u hu
      rw [hkeys]
      rcases List.mem_append.mp hu with hu | hu
      · exact hmem u hu
      · rw [List.mem_singleton] at hu
        subst hu
        obtain ⟨p, hp, hpc⟩ := List.any_eq_true.mp hany
        rw [decide_eq_true_eq] at hpc
        exact hpc ▸ List.mem_map_of_mem Prod.fst hp
    · intro p' hp'
      obtain ⟨p, hp, hpe⟩ := List.mem_map.mp hp'
      subst hpe
      rw [List.filter_append]
      by_cases hpc : p.1 = t.category_name
      · rw [hupd]
        simp only [if_pos hpc]
        rw [hval p hp, hpc]
        rw [hpos]
        simp
      · rw [hupd]
        simp only [if_neg hpc]
        rw [hval p hp]
        have hempty : List.filter (fun u => decide (u.category_name = p.1)) [t] = [] := by
          simp
          intro hc
          exact hpc hc.symm
        rw [hempty, List.append_nil]
  · simp only [if_neg hany]
    have hfresh : ∀ p ∈ totals, ¬ p.1 = t.category_name := by
      intro p hp hpc
      exact hany (List.any_eq_true.mpr ⟨p, hp, by simpa using hpc⟩)
    have hnone : ∀ u ∈ processed, ¬ u.category_name = t.category_name := by
      intro u hu huc
      obtain ⟨p, hp, hpc⟩ := List.mem_map.mp (hmem u hu)
      exact hfresh p hp (by rw [hpc]; exact huc)
    refine ⟨?_, ?_, ?_⟩
    · rw [List.map_append]
      simp only [List.map_cons, List.map_nil]
      rw [List.nodup_append]
      refine ⟨hnd, by simp, ?_⟩
      intro a ha hb
      simp only [List.mem_singleton] at hb
      subst hb
      obtain ⟨p, hp, hpc⟩ := List.mem_map.mp ha
      exact hfresh p hp hpc
    · intro u hu
      rw [List.map_append]
      rcases List.mem_append.mp hu with hu | hu
      · exact List.mem_append_left _ (hmem u hu)
      · rw [List.mem_singleton] at hu
        subst hu
        simp
    · intro p hp
      rcases List.mem_append.mp hp with hp | hp
      · rw [hval p hp, List.filter_append]
        have hempty : List.filter (fun u => decide (u.category_name = p.1)) [t] = [] := by
          simp
          intro hc
          exact hfresh p hp hc.symm
        rw [hempty, List.append_nil]
      · rw [List.mem_singleton] at hp
        subst hp
        simp only
        rw [List.filter_append, hpos]
        have hempty : List.filter
            (fun u => decide (u.category_name = t.category_name)) processed = [] := by
          rw [List.filter_eq_nil_iff]
          intro u hu
          simpa using hnone u hu
        rw [hempty, List.nil_append]
        simp

theorem foldl_addCategoryAmount_inv (l : List Transaction) :
    ∀ (processed : List Transaction) (totals : List (String × ℚ)),
      TotalsInv processed totals →
        TotalsInv (processed ++ l) (l.foldl addCategoryAmount totals) := by
  induction l with
  | nil =>
    intro processed totals h
    simpa using h
  | cons x l ih =>
    intro processed totals h
    have h2 := ih (processed ++ [x]) (addCategoryAmount totals x)
      (addCategoryAmount_inv processed totals x h)
    simpa [List.append_assoc] using h2

theorem buildTotals_values (l : List Transaction) :
    ∀ p ∈ buildTotals l, p.2 =
      ((l.filter (fun t => t.category_name = p.1)).map (fun t => t.amount)).sum := by
  have h := foldl_addCategoryAmount_inv l [] [] ⟨by simp, by simp, by simp⟩
  rw [List.nil_append] at h
  exact h.2.2

theorem snd_mem_of_mem_enumFrom {α : Type} :
    ∀ (l : List α) (n : ℕ) (ip : ℕ × α), ip ∈ l.enumFrom n → ip.2 ∈ l := by
  intro l
  induction l with
  | nil => intro n ip h; simp [List.enumFrom] at h
  | cons a l ih =>
    intro n ip h
    rw [List.enumFrom] at h
    rcases List.mem_cons.mp h with h | h
    · subst h
      simp
    · exact List.mem_cons_of_mem _ (ih (n + 1) ip h)

theorem pairwise_enumFrom_snd {α : Type} (R : α → α → Prop) :
    ∀ (l : List α) (n : ℕ), l.Pairwise R →
      (l.enumFrom n).Pairwise (fun a b => R a.2 b.2) := by
  intro l
  induction l with
  | nil => intro n h; simp [List.enumFrom]
  | cons a l ih =>
    intro n h
    rw [List.pairwise_cons] at h
    rw [List.enumFrom, List.pairwise_cons]
    refine ⟨?_, ih (n + 1) h.2⟩
    intro ip hip
    exact h.1 ip.2 (snd_mem_of_mem_enumFrom l (n + 1) ip hip)

theorem mergeSort_desc_pairwise (l : List (String × ℚ)) :
    (l.mergeSort (fun a b => decide (b.2 ≤ a.2))).Pairwise
      (fun a b : String × ℚ => b.2 ≤ a.2) := by
  have h := @List.sorted_mergeSort (String × ℚ) (fun a b => decide (b.2 ≤ a.2))
    (fun a b c hab hbc => by
      rw [decide_eq_true_eq] at *
      exact le_trans hbc hab)
    (fun a b => by
      rw [Bool.or_eq_true, decide_eq_true_eq, decide_eq_true_eq]
      exact le_total b.2 a.2)
    l
  exact h.imp (fun hab => by simpa using hab)

end Insights

/-- C10 (confirmed): `getCategoryChartData` returns at most six entries,
ordered by non-increasing value, and every entry's value is the sum of the
amounts of the type-`expense` transactions of its (label-truncated)
category within the period-filtered list. -/
theorem getCategoryChartData_top6_sorted_sums (dv : String → ℤ)
    (p : Insights.TimePeriod) (cs ce : Option ℤ) (now : ℤ)
    (txns : List Insights.Transaction) :
    (Insights.getCategoryChartData dv p cs ce now txns).length ≤ 6 ∧
    (Insights.getCategoryChartData dv p cs ce now txns).Pairwise
      (fun a b => b.value ≤ a.value) ∧
    (∀ e ∈ Insights.getCategoryChartData dv p cs ce now txns, ∃ c : String,
      e.label = Insights.truncateLabel c ∧
      e.value = ((((Insights.filterTransactionsByPeriod dv p cs ce now
            txns).filter (fun t => t.type = "expense")).filter
              (fun t => t.category_name = c)).map (fun t => t.amount)).sum) := by
  simp only [Insights.getCategoryChartData]
  set expenses := (Insights.filterTransactionsByPeriod dv p cs ce now txns).filter
    (fun t => t.type = "expense") with hexp
  set sorted := ((Insights.buildTotals expenses).mergeSort
    (fun a b => decide (b.2 ≤ a.2))).take 6 with hsorted
  refine ⟨?_, ?_, ?_⟩
  · rw [List.length_map, List.enum_length, hsorted, List.length_take]
    exact le_trans (min_le_left _ _) le_rfl
  · rw [List.pairwise_map]
    have h1 := Insights.mergeSort_desc_pairwise (Insights.buildTotals expenses)
    have h2 := h1.sublist (List.take_sublist 6 _)
    have h3 := Insights.pairwise_enumFrom_snd _ sorted 0 h2
    exact h3.imp (fun hab => hab)
  · intro e he
    obtain ⟨ip, hip, hipe⟩ := List.mem_map.mp he
    have hmem : ip.2 ∈ sorted := Insights.snd_mem_of_mem_enumFrom sorted 0 ip hip
    have hmem2 : ip.2 ∈ (Insights.buildTotals expenses).mergeSort
        (fun a b => decide (b.2 ≤ a.2)) :=
      List.mem_of_mem_take (hsorted ▸ hmem)
    have hmem3 : ip.2 ∈ Insights.buildTotals expenses :=
      (List.mergeSort_perm (Insights.buildTotals expenses) _).mem_iff.mp hmem2
    refine ⟨ip.2.1, ?_, ?_⟩
    · rw [← hipe]
    · rw [← hipe]
      exact Insights.buildTotals_values expenses ip.2 hmem3

/-- A single expense transaction used to instantiate the chart theorem. -/
def txnE : Insights.Transaction := ⟨"e1", "expense", 5, "Food", "2024-01-01"⟩

theorem getCategoryChartData_top6_sorted_sums_witness :
    ∃ c : String,
      (Insights.ChartEntry.mk 5 "Food" "#D32F2F").label = Insights.truncateLabel c ∧
      (Insights.ChartEntry.mk 5 "Food" "#D32F2F").value =
        ((((Insights.filterTransactionsByPeriod (fun _ => 0) .all none none 0
            [txnE]).filter (fun t => t.type = "expense")).filter
              (fun t => t.category_name = c)).map (fun t => t.amount)).sum := by
  apply (getCategoryChartData_top6_sorted_sums (fun _ => 0) .all none none 0
    [txnE]).2.2
  have hEq : Insights.getCategoryChartData (fun _ => 0) .all none none 0 [txnE] =
      [⟨5, "Food", "#D32F2F"⟩] := by
    simp [Insights.getCategoryChartData, Insights.filterTransactionsByPeriod,
      Insights.buildTotals, Insights.addCategoryAmount, Insights.truncateLabel,
      Insights.categoryColors, txnE, List.enum]
    decide
  rw [hEq]
  simp
